import Mathlib

/-!
Shallow embedding of the TubeSage transcript chunking and vector retrieval
engine, used to check the natural-language specification against the code.

Python texts are modelled as `List Char`, Python dicts as insertion-ordered
association lists, and machine floats as exact rationals (vector components)
or reals (similarity values, which involve square roots).
-/

namespace TubeSage

/-- Python strings, modelled as lists of characters. -/
abbrev Str := List Char

/-- Coerce a Lean string literal to the `List Char` model. -/
def lit (s : String) : Str := s.data

/-- Python `a in b` on strings: contiguous substring test. -/
def strContains (s pat : Str) : Bool :=
  match s with
  | [] => pat.isPrefixOf []
  | _ :: rest => pat.isPrefixOf s || strContains rest pat

/-- Python `str.lower`, restricted to the per-character lowering the claims exercise. -/
def lowerStr (s : Str) : Str := s.map Char.toLower

/-- Python `str.strip()`: drop leading and trailing whitespace. -/
def strip (s : Str) : Str :=
  ((s.dropWhile Char.isWhitespace).reverse.dropWhile Char.isWhitespace).reverse

/-- Python `l[-n:]`: the last `n` elements (the whole list when shorter). -/
def takeLast (n : Nat) (l : Str) : Str := l.drop (l.length - n)

/-- Worker for `splitOnSep`, structurally recursive on fuel so that the kernel
can evaluate it; `acc` holds the current piece reversed. -/
def splitOnAux (sep : Str) : Nat → Str → Str → List Str
  | 0, s, acc => [acc.reverse ++ s]
  | fuel + 1, s, acc =>
    match s with
    | [] => [acc.reverse]
    | c :: rest =>
      if sep.isPrefixOf (c :: rest) then
        acc.reverse :: splitOnAux sep fuel ((c :: rest).drop sep.length) []
      else
        splitOnAux sep fuel rest (c :: acc)

/-- Python `text.split(sep)` for a non-empty separator. -/
def splitOnSep (sep s : Str) : List Str := splitOnAux sep s.length s []

/-- Python `sep.join(pieces)`. -/
def joinSep (sep : Str) : List Str → Str
  | [] => []
  | [x] => x
  | x :: xs => x ++ sep ++ joinSep sep xs

/-- Worker for `splitWS` (fuelled). -/
def splitWSAux : Nat → Str → List Str
  | 0, _ => []
  | fuel + 1, s =>
    match s.dropWhile Char.isWhitespace with
    | [] => []
    | c :: rest =>
      ((c :: rest).takeWhile (fun ch => ¬ ch.isWhitespace)) ::
        splitWSAux fuel ((c :: rest).dropWhile (fun ch => ¬ ch.isWhitespace))

/-- Python `str.split()` with no argument: split on whitespace runs, no empty pieces. -/
def splitWS (s : Str) : List Str := splitWSAux s.length s

/-! ## Python dicts as insertion-ordered association lists -/

/-- Keys of a dict, in insertion order. -/
def dictKeys {β : Type} (m : List (String × β)) : List String := m.map Prod.fst

/-- Python `d[k]` as an option (`d.get(k)`): first binding of `k`. -/
def dictFind {β : Type} (m : List (String × β)) (k : String) : Option β :=
  (m.find? (fun p => p.1 = k)).map Prod.snd

/-- Python `d[k] = v`: update in place when the key exists, else append. -/
def dictSet {β : Type} (m : List (String × β)) (k : String) (v : β) : List (String × β) :=
  if (dictKeys m).contains k then
    m.map (fun p => if p.1 = k then (k, v) else p)
  else
    m ++ [(k, v)]

/-- Python `d.setdefault(k, v)`: insert only when the key is absent. -/
def dictSetdefault {β : Type} (m : List (String × β)) (k : String) (v : β) :
    List (String × β) :=
  if (dictKeys m).contains k then m else m ++ [(k, v)]

/-- Python `d.pop(k, None)`: remove the binding of `k` when present. -/
def dictPop {β : Type} (m : List (String × β)) (k : String) : List (String × β) :=
  m.filter (fun p => p.1 ≠ k)

/-! ## Vector database (src/server/services/vector_db.py) -/

/-- Exact model of a numpy 1-d float vector. -/
abbrev Vec := List ℚ

/-- Metadata dicts; the claims only exercise string-valued fields. -/
abbrev Metadata := List (String × String)

/-- State of `VectorDatabase` (vector_db.py lines 9-13). -/
structure VectorDatabase where
  dimension : Nat
  vectors : List (String × Vec)
  metadata : List (String × Metadata)
  index_dirty : Bool
  deriving DecidableEq

/-- `VectorDatabase.__init__` with the default dimension 1536. -/
def VectorDatabase.init : VectorDatabase :=
  { dimension := 1536, vectors := [], metadata := [], index_dirty := false }

/-- `VectorDatabase.add_vector`: dimension-checked insert into both maps. -/
def addVector (db : VectorDatabase) (vector_id : String) (vector : Vec)
    (metadata : Metadata) : Except String VectorDatabase :=
  if vector.length ≠ db.dimension then
    .error "Vector dimension does not match database dimension"
  else
    .ok { db with
          vectors := dictSet db.vectors vector_id vector
          metadata := dictSet db.metadata vector_id metadata
          index_dirty := true }

/-- `np.dot` on two 1-d arrays. -/
def dot (v w : Vec) : ℚ := (List.zipWith (· * ·) v w).sum

/-- Sum of squares of the components. -/
def sumSq (v : Vec) : ℚ := (v.map (fun x => x * x)).sum

/-- `np.linalg.norm`: the Euclidean norm. -/
noncomputable def vnorm (v : Vec) : ℝ := Real.sqrt ((sumSq v : ℚ) : ℝ)

/-- `VectorDatabase._cosine_similarity` (vector_db.py lines 114-124). -/
noncomputable def cosineSimilarity (vec1 vec2 : Vec) : ℝ :=
  if vnorm vec1 = 0 ∨ vnorm vec2 = 0 then 0
  else ((dot vec1 vec2 : ℚ) : ℝ) / (vnorm vec1 * vnorm vec2)

/-- One entry of a search result list. -/
structure SearchResult where
  id : String
  similarity : ℝ
  metadata : Metadata

/-- Descending-by-similarity comparator used by Python's stable
`list.sort(key=similarity, reverse=True)`. -/
noncomputable def simDesc (a b : SearchResult) : Bool :=
  decide (b.similarity ≤ a.similarity)

/-- `VectorDatabase.search_similar` (vector_db.py lines 25-50): linear scan,
threshold filter, stable descending sort, truncation to `top_k`. -/
noncomputable def searchSimilar (db : VectorDatabase) (query_vector : Vec)
    (top_k : Nat) (threshold : ℝ) : Except String (List SearchResult) :=
  if query_vector.length ≠ db.dimension then
    .error "Query vector dimension does not match database dimension"
  else if db.vectors.isEmpty then
    .ok []
  else
    let similarities := db.vectors.filterMap (fun p =>
      let s := cosineSimilarity query_vector p.2
      if threshold ≤ s then
        some { id := p.1, similarity := s, metadata := (dictFind db.metadata p.1).getD [] }
      else
        none)
    .ok ((similarities.mergeSort simDesc).take top_k)

/-- `VectorDatabase.remove_vector` (vector_db.py lines 52-57). -/
def removeVector (db : VectorDatabase) (vector_id : String) : VectorDatabase :=
  { db with
    vectors := dictPop db.vectors vector_id
    metadata := dictPop db.metadata vector_id
    index_dirty := true }

/-- `VectorDatabase.remove_by_metadata` (vector_db.py lines 59-69). -/
def removeByMetadata (db : VectorDatabase) (key : String) (value : String) :
    VectorDatabase :=
  let to_remove := (db.metadata.filter (fun p => dictFind p.2 key == some value)).map Prod.fst
  to_remove.foldl removeVector db

/-- `VectorDatabase.clear` (vector_db.py lines 81-86). -/
def clearDb (db : VectorDatabase) : VectorDatabase :=
  { db with vectors := [], metadata := [], index_dirty := false }

/-- The parsed content of a snapshot file (`{dimension, vectors, metadata}`). -/
structure SnapshotData where
  dimension : Nat
  vectors : List (String × Vec)
  metadata : List (String × Metadata)
  deriving DecidableEq

/-- `VectorDatabase.save_to_file` (vector_db.py lines 88-98), with the file
system abstracted away: the document written. -/
def saveToFile (db : VectorDatabase) : SnapshotData :=
  { dimension := db.dimension, vectors := db.vectors, metadata := db.metadata }

/-- `VectorDatabase.load_from_file` (vector_db.py lines 100-112): `none` models
a missing file (early return), `some data` the parsed document. -/
def loadFromFile (db : VectorDatabase) (file : Option SnapshotData) : VectorDatabase :=
  match file with
  | none => db
  | some data =>
    { dimension := data.dimension
      vectors := data.vectors
      metadata := data.metadata
      index_dirty := false }

/-! ## Text chunker (src/server/agents/text_chunker.py) -/

/-- Configuration fixed by `TextChunker.__init__` (text_chunker.py lines 13-15). -/
structure TextChunker where
  chunk_size : Nat := 1000
  chunk_overlap : Nat := 200
  separators : List Str := [lit "\n\n", lit "\n", lit ". ", lit "? ", lit "! ", lit " "]

/-- The chunker as constructed, with the fixed policy values. -/
def defaultChunker : TextChunker := {}

/-- Python `l[-n:]` on any list. -/
def takeLastN {α : Type} (n : Nat) (l : List α) : List α := l.drop (l.length - n)

/-- `TextChunker._get_overlap_text` (text_chunker.py lines 94-109). -/
def getOverlapText (c : TextChunker) (text : Str) : Str :=
  if text.length ≤ c.chunk_overlap then text ++ [' ']
  else
    let overlap_candidates := splitOnSep [' '] (takeLast c.chunk_overlap text)
    let overlap_text :=
      if 1 < overlap_candidates.length then joinSep [' '] (overlap_candidates.drop 1)
      else takeLast c.chunk_overlap text
    if overlap_text = [] then [] else overlap_text ++ [' ']

/-- Python `text.rfind(' ', start, stop)`: highest index of a space in
`[start, stop)`, or `-1`. -/
def rfindSpace (text : Str) (start stop : Nat) : Int :=
  let seg := (text.take stop).drop start
  match seg.reverse.findIdx? (fun ch => ch = ' ') with
  | none => -1
  | some j => ((start + (seg.length - 1 - j) : Nat) : Int)

/-- Worker for `splitByCharacters` (fuelled; `start` is the absolute window start). -/
def splitByCharsAux (c : TextChunker) (text : Str) : Nat → Nat → List Str
  | 0, _ => []
  | fuel + 1, start =>
    if start < text.length then
      let e := start + c.chunk_size
      if text.length ≤ e then [text.drop start]
      else
        let sp := rfindSpace text start e
        let e' := if (start : Int) < sp then sp.toNat else e
        ((text.take e').drop start) ::
          splitByCharsAux c text fuel
            (if start < e' - c.chunk_overlap then e' - c.chunk_overlap else e')
    else []

/-- `TextChunker._split_by_characters` (text_chunker.py lines 111-132). -/
def splitByCharacters (c : TextChunker) (text : Str) : List Str :=
  splitByCharsAux c text text.length 0

/-- The accumulation loop of `_recursive_split` over the separator pieces
(text_chunker.py lines 65-87); `recSub` is the recursive call at smaller fuel. -/
def chunkLoop (c : TextChunker) (sep : Str) (recSub : Str → List Str) :
    List Str → List Str → Str → List Str × Str
  | [], chunks, current => (chunks, current)
  | piece :: rest, chunks, current =>
    if c.chunk_size < current.length + piece.length + sep.length then
      if current ≠ [] then
        chunkLoop c sep recSub rest (chunks ++ [strip current])
          (getOverlapText c current ++ piece)
      else
        let sub := recSub piece
        chunkLoop c sep recSub rest (chunks ++ sub.dropLast) (sub.getLast?.getD [])
    else
      if current ≠ [] then chunkLoop c sep recSub rest chunks (current ++ sep ++ piece)
      else chunkLoop c sep recSub rest chunks piece

/-- `TextChunker._recursive_split` (text_chunker.py lines 53-92), fuelled so
the kernel can evaluate it; the fuel bounds the recursion depth. -/
def recursiveSplitFuel (c : TextChunker) : Nat → Str → List Str
  | 0, text => [text]
  | fuel + 1, text =>
    if text.length ≤ c.chunk_size then [text]
    else
      match c.separators.find? (fun sep => strContains text sep) with
      | some sep =>
        let st := chunkLoop c sep (fun t => recursiveSplitFuel c fuel t)
          (splitOnSep sep text) [] []
        if st.2 ≠ [] then st.1 ++ [strip st.2] else st.1
      | none => splitByCharacters c text

/-- `TextChunker._recursive_split` at adequate fuel. -/
def recursiveSplit (c : TextChunker) (text : Str) : List Str :=
  recursiveSplitFuel c text.length text

/-- One entry of `raw_transcript`: a time-coded segment. -/
structure TranscriptEntry where
  text : Str
  start : ℚ
  duration : ℚ
  deriving DecidableEq

/-- Python `int()` truncation toward zero on an exact float value. -/
def pyTrunc (q : ℚ) : ℤ := if q < 0 then -((-q).floor) else q.floor

/-- Python `f"{n:02d}"`: zero-pad to width 2. -/
def pad2 (n : ℤ) : Str := if 0 ≤ n ∧ n < 10 then '0' :: (toString n).data else (toString n).data

/-- `TextChunker._format_timestamp` (text_chunker.py lines 187-198). -/
def formatTimestamp (seconds : ℚ) : Str :=
  let total_seconds : ℤ := pyTrunc seconds
  let hours := Int.ediv total_seconds 3600
  let minutes := Int.ediv (Int.emod total_seconds 3600) 60
  let secs := Int.emod total_seconds 60
  if 0 < hours then pad2 hours ++ lit ":" ++ pad2 minutes ++ lit ":" ++ pad2 secs
  else pad2 minutes ++ lit ":" ++ pad2 secs

/-- The lowercased phrase of the chunk's first 5 whitespace-delimited words. -/
def startPhrase (chunk : Str) : Str := lowerStr (joinSep [' '] ((splitWS chunk).take 5))

/-- The lowercased phrase of the chunk's last 5 whitespace-delimited words. -/
def endPhrase (chunk : Str) : Str := lowerStr (joinSep [' '] (takeLastN 5 (splitWS chunk)))

/-- `TextChunker._find_chunk_timestamps` (text_chunker.py lines 153-185): the
end-time scan runs only when the start scan succeeded. -/
def findChunkTimestamps (chunk : Str) (raw : List TranscriptEntry) : Str × Str :=
  if raw = [] then (lit "00:00", lit "00:00")
  else
    match raw.find? (fun e => strContains (lowerStr e.text) (startPhrase chunk)) with
    | none => (lit "00:00", lit "00:00")
    | some e =>
      match raw.find? (fun e2 => strContains (lowerStr e2.text) (endPhrase chunk)) with
      | none => (formatTimestamp e.start, lit "00:00")
      | some e2 => (formatTimestamp e.start, formatTimestamp (e2.start + e2.duration))

/-- A timestamped chunk as built by `_add_timestamps`. -/
structure Chunk where
  content : Str
  chunk_index : Nat
  start_time : Str
  end_time : Str
  word_count : Nat
  deriving DecidableEq

/-- `TextChunker._add_timestamps` (text_chunker.py lines 134-151). -/
def addTimestamps (chunks : List Str) (raw : List TranscriptEntry) : List Chunk :=
  chunks.enum.map (fun p =>
    let ts := findChunkTimestamps p.2 raw
    { content := p.2, chunk_index := p.1, start_time := ts.1, end_time := ts.2,
      word_count := (splitWS p.2).length })

/-- The chunking pipeline of `TextChunker.process_task` (text_chunker.py lines
27-37): input validation, recursive split, timestamp alignment. -/
def chunkText (c : TextChunker) (transcript : Str) (raw : List TranscriptEntry) :
    Except String (List Chunk) :=
  if transcript = [] then .error "Transcript text is required"
  else .ok (addTimestamps (recursiveSplit c transcript) raw)

/-! ## Search agent (src/server/agents/search_agent.py)

The embedding provider (`_get_embedding`) is an external, fallible
collaborator: it is modelled as a function `String → Option Vec`, with `none`
standing for a raised exception. `emb` is the primary model, `embR` the
re-ranking model. -/

/-- Configuration fixed by `SearchAgent.__init__` (search_agent.py lines 32-37). -/
structure SearchAgent where
  max_results : Nat := 15
  min_similarity_threshold : ℝ := 0.2
  rerank_model : String := "text-embedding-3-small"

/-- The search agent as constructed by default. -/
noncomputable def defaultAgent : SearchAgent := {}

/-- The `{query, total_results, results}` response shape. -/
structure SearchResponse where
  query : String
  total_results : Nat
  results : List SearchResult

/-- `SearchAgent._keyword_search` (search_agent.py lines 68-89). -/
def keywordSearch (a : SearchAgent) (db : VectorDatabase) (query : String) :
    SearchResponse :=
  let matchList := db.metadata.filterMap (fun p =>
    let content := (dictFind p.2 "content").getD ""
    if strContains (lowerStr content.data) (lowerStr query.data) then
      some { id := p.1, similarity := 1, metadata := p.2 }
    else none)
  { query := query, total_results := matchList.length, results := matchList.take a.max_results }

/-- A search-result dict after `_rerank` may carry an extra
`similarity_rerank` key; `none` models the absent key. -/
structure RerankEntry where
  res : SearchResult
  similarity_rerank : Option ℝ

/-- The sort key `x.get("similarity_rerank", x.get("similarity", 0))`. -/
noncomputable def rerankScore (e : RerankEntry) : ℝ :=
  e.similarity_rerank.getD e.res.similarity

/-- `SearchAgent._rerank` (search_agent.py lines 132-154). -/
noncomputable def rerank (embR : String → Option Vec) (query : String)
    (cands : List SearchResult) : List RerankEntry :=
  match embR query with
  | none => cands.map (fun m => { res := m, similarity_rerank := none })
  | some query_emb =>
    let scored := cands.map (fun m =>
      let content := (dictFind m.metadata "content").getD ""
      let sim : ℝ :=
        match embR (String.mk (content.data.take 8192)) with
        | some chunk_emb =>
          ((dot query_emb chunk_emb : ℚ) : ℝ) / (vnorm query_emb * vnorm chunk_emb)
        | none => m.similarity
      { res := m, similarity_rerank := some sim })
    scored.mergeSort (fun a b => decide (rerankScore b ≤ rerankScore a))

/-- `SearchAgent._semantic_search` (search_agent.py lines 91-111); `none`
models a raised exception (embedding failure or dimension mismatch). -/
noncomputable def semanticSearch (a : SearchAgent) (db : VectorDatabase)
    (emb embR : String → Option Vec) (query : String) : Option SearchResponse :=
  match emb query with
  | none => none
  | some embedding =>
    match searchSimilar db embedding a.max_results a.min_similarity_threshold with
    | .error _ => none
    | .ok ms =>
      let ms' := if a.rerank_model ≠ "" then (rerank embR query ms).map (fun e => e.res)
                 else ms
      some { query := query, total_results := ms'.length, results := ms' }

/-- The merge map `{item["id"]: item for item in sem_res["results"]}`. -/
def insertAllById (m : List (String × SearchResult)) (items : List SearchResult) :
    List (String × SearchResult) :=
  items.foldl (fun m item => dictSet m item.id item) m

/-- The `combined.setdefault(m["id"], m)` pass over the keyword results. -/
def setdefaultAllById (m : List (String × SearchResult)) (items : List SearchResult) :
    List (String × SearchResult) :=
  items.foldl (fun m item => dictSetdefault m item.id item) m

/-- The union-and-sort core of `_hybrid_search` (search_agent.py lines 119-124). -/
noncomputable def hybridRanked (sem kw : List SearchResult) : List SearchResult :=
  let combined := setdefaultAllById (insertAllById [] sem) kw
  (combined.map Prod.snd).mergeSort simDesc

/-- `SearchAgent._hybrid_search` (search_agent.py lines 113-130). -/
noncomputable def hybridSearch (a : SearchAgent) (db : VectorDatabase)
    (emb embR : String → Option Vec) (query : String) : Option SearchResponse :=
  let kw_res := keywordSearch a db query
  match semanticSearch a db emb embR query with
  | none => none
  | some sem_res =>
    let ranked := hybridRanked sem_res.results kw_res.results
    some { query := query, total_results := ranked.length,
           results := ranked.take a.max_results }

/-! ## Spec-side helper definitions -/

/-- The mutating operations of the vector store, as an operation language. -/
inductive DbOp where
  | insert (id : String) (v : Vec) (md : Metadata)
  | remove (id : String)
  | removeByMeta (key value : String)
  | clear

/-- Apply one operation; a raised `ValueError` on a wrong-length insert
leaves the caller's state unchanged. -/
def applyOp (db : VectorDatabase) : DbOp → VectorDatabase
  | .insert id v md =>
    match addVector db id v md with
    | .ok db' => db'
    | .error _ => db
  | .remove id => removeVector db id
  | .removeByMeta key value => removeByMetadata db key value
  | .clear => clearDb db

/-- Apply a sequence of operations in order. -/
def applyOps (db : VectorDatabase) (ops : List DbOp) : VectorDatabase :=
  ops.foldl applyOp db

/-- The invariant: both dicts hold exactly the same keys, in the same order. -/
def keysEq (db : VectorDatabase) : Prop :=
  dictKeys db.vectors = dictKeys db.metadata

/-- Position of an id in the index's insertion order. -/
def keyIndex (db : VectorDatabase) (id : String) : Nat :=
  (dictKeys db.vectors).indexOf id

/-- The per-candidate truncated content sent to the re-rank embedding model. -/
def rerankInput (m : SearchResult) : String :=
  String.mk (((dictFind m.metadata "content").getD "").data.take 8192)

/-! ## General lemmas -/

theorem recursiveSplit_small (c : TextChunker) (text : Str)
    (h : text.length ≤ c.chunk_size) : recursiveSplit c text = [text] := by
  unfold recursiveSplit
  cases h' : text.length with
  | zero => rfl
  | succ n =>
    unfold recursiveSplitFuel
    rw [if_pos (h' ▸ h)]

/-! ## C4: restore with a mismatched snapshot dimension -/

/-- C4, counterexample: loading a dimension-2 snapshot into a dimension-3
index does not fail; `load_from_file` silently adopts the stored dimension
(vector_db.py line 109), contradicting the claimed fail-fast behaviour. -/
theorem c4_counterexample :
    loadFromFile
        { dimension := 3, vectors := [("a", [1, 0, 0])],
          metadata := [("a", [("content", "x")])], index_dirty := true }
        (some { dimension := 2, vectors := [("b", [1, 2])], metadata := [("b", [])] }) =
      { dimension := 2, vectors := [("b", [1, 2])], metadata := [("b", [])],
        index_dirty := false }
    ∧ (2 : Nat) ≠ 3 := by
  exact ⟨rfl, by decide⟩

/-- C4, amended: `load_from_file` never fails on a dimension mismatch; it
wholesale replaces the state, adopting the snapshot's dimension, and stores
every snapshot vector verbatim (no truncation or padding); a missing file is
a no-op. -/
theorem c4_load_adopts_dimension (db : VectorDatabase) (data : SnapshotData) :
    (loadFromFile db (some data)).dimension = data.dimension
    ∧ (∀ id, dictFind (loadFromFile db (some data)).vectors id = dictFind data.vectors id)
    ∧ (∀ id, dictFind (loadFromFile db (some data)).metadata id = dictFind data.metadata id)
    ∧ loadFromFile db none = db := by
  exact ⟨rfl, fun _ => rfl, fun _ => rfl, rfl⟩

/-! ## C8: cosine similarity zero-norm guard -/

theorem vnorm_replicate_zero (n : Nat) : vnorm (List.replicate n (0 : ℚ)) = 0 := by
  unfold vnorm sumSq
  rw [List.map_replicate, List.sum_replicate]
  simp

/-- C8: the cosine similarity returns exactly 0 whenever either vector has
zero norm; otherwise the denominator it divides by is nonzero, so no division
by zero ever occurs, and the zero vector in particular gets similarity 0. -/
theorem c8_cosine_similarity_guard (vec1 vec2 : Vec) :
    (vnorm vec1 = 0 ∨ vnorm vec2 = 0 → cosineSimilarity vec1 vec2 = 0)
    ∧ (vnorm vec1 ≠ 0 → vnorm vec2 ≠ 0 →
        vnorm vec1 * vnorm vec2 ≠ 0 ∧
        cosineSimilarity vec1 vec2 = ((dot vec1 vec2 : ℚ) : ℝ) / (vnorm vec1 * vnorm vec2))
    ∧ cosineSimilarity (List.replicate vec1.length (0 : ℚ)) vec2 = 0 := by
  refine ⟨fun h => ?_, fun h1 h2 => ⟨mul_ne_zero h1 h2, ?_⟩, ?_⟩
  · unfold cosineSimilarity
    rw [if_pos h]
  · unfold cosineSimilarity
    rw [if_neg (by push_neg; exact ⟨h1, h2⟩)]
  · unfold cosineSimilarity
    rw [if_pos (Or.inl (vnorm_replicate_zero _))]

/-- C8 witness: concrete instances discharging each hypothesis. -/
theorem c8_witness :
    cosineSimilarity [(0 : ℚ)] [(1 : ℚ)] = 0
    ∧ vnorm [(1 : ℚ)] * vnorm [(1 : ℚ)] ≠ 0 := by
  have h1 : vnorm [(0 : ℚ)] = 0 := by
    unfold vnorm sumSq
    norm_num
  have h2 : vnorm [(1 : ℚ)] ≠ 0 := by
    unfold vnorm sumSq
    norm_num
  exact ⟨(c8_cosine_similarity_guard [(0 : ℚ)] [(1 : ℚ)]).1 (Or.inl h1),
         ((c8_cosine_similarity_guard [(1 : ℚ)] [(1 : ℚ)]).2.1 h2 h2).1⟩

/-! ## C5: transcripts at most target_size come back as one passage -/

/-- C5, counterexample: for the 3-character transcript `" a "` the single
returned passage's content is `" a "` itself, not its trimmed form `"a"`:
the `len(text) <= chunk_size` path of `_recursive_split` (text_chunker.py
lines 56-57) returns the text without stripping. -/
theorem c5_counterexample :
    chunkText defaultChunker (lit " a ") [] =
      .ok [{ content := lit " a ", chunk_index := 0, start_time := lit "00:00",
             end_time := lit "00:00", word_count := 1 }]
    ∧ lit " a " ≠ strip (lit " a ") := by
  exact ⟨rfl, by decide⟩

/-- C5, amended: for every non-empty transcript `T` with `len(T) ≤
target_size`, `chunk(T, segments)` returns exactly one passage whose content
equals `T` exactly (untrimmed), for any segments list. -/
theorem c5_single_passage (transcript : Str) (raw : List TranscriptEntry)
    (hne : transcript ≠ []) (hlen : transcript.length ≤ defaultChunker.chunk_size) :
    ∃ st en wc, chunkText defaultChunker transcript raw =
      .ok [{ content := transcript, chunk_index := 0, start_time := st,
             end_time := en, word_count := wc }] := by
  refine ⟨(findChunkTimestamps transcript raw).1, (findChunkTimestamps transcript raw).2,
    (splitWS transcript).length, ?_⟩
  unfold chunkText
  rw [if_neg hne, recursiveSplit_small _ _ hlen]
  rfl

/-- C5 witness: the spec's own scenario string `"one. two. three."`. -/
theorem c5_witness :
    lit "one. two. three." ≠ []
    ∧ (lit "one. two. three.").length ≤ defaultChunker.chunk_size
    ∧ ∃ st en wc, chunkText defaultChunker (lit "one. two. three.") [] =
        .ok [{ content := lit "one. two. three.", chunk_index := 0, start_time := st,
               end_time := en, word_count := wc }] := by
  exact ⟨by decide, by decide, c5_single_passage _ [] (by decide) (by decide)⟩

/-! ## C3: timestamp alignment is not independent of the start match -/

/-- C3, counterexample: for the chunk `"a b c d e f g h i j"` and a single
segment containing its last 5 words (but not its first 5), the code returns
`end_time = "00:00"` although the claimed symmetric scan would return
`"01:10"` (= 60 + 10 seconds): the end scan only runs when the start scan
succeeded (text_chunker.py line 175). -/
theorem c3_counterexample :
    findChunkTimestamps (lit "a b c d e f g h i j")
        [{ text := lit "f g h i j", start := 60, duration := 10 }] =
      (lit "00:00", lit "00:00")
    ∧ strContains (lowerStr (lit "f g h i j")) (endPhrase (lit "a b c d e f g h i j")) = true
    ∧ formatTimestamp ((60 : ℚ) + 10) = lit "01:10"
    ∧ lit "01:10" ≠ lit "00:00" := by
  refine ⟨by decide, by decide, ?_, by decide⟩
  have h : (60 : ℚ) + 10 = 70 := by norm_num
  rw [h]
  decide

/-- C3, amended: `start_time` comes from the first segment whose lowercased
text contains the passage's first 5 lowercased words; the end scan runs only
when the start scan succeeded, in which case `end_time` is `start + duration`
of the first segment containing the last 5 words; any boundary without a
match (in particular both, whenever the start scan fails or `segments` is
empty) defaults to `"00:00"`. -/
theorem c3_timestamp_alignment (chunk : Str) (raw : List TranscriptEntry) :
    (raw = [] → findChunkTimestamps chunk raw = (lit "00:00", lit "00:00"))
    ∧ ((∀ e ∈ raw, strContains (lowerStr e.text) (startPhrase chunk) = false) →
        findChunkTimestamps chunk raw = (lit "00:00", lit "00:00"))
    ∧ (∀ e, raw.find? (fun e => strContains (lowerStr e.text) (startPhrase chunk)) = some e →
        (findChunkTimestamps chunk raw).1 = formatTimestamp e.start
        ∧ ((∀ e2 ∈ raw, strContains (lowerStr e2.text) (endPhrase chunk) = false) →
            (findChunkTimestamps chunk raw).2 = lit "00:00")
        ∧ (∀ e2, raw.find? (fun e2 => strContains (lowerStr e2.text) (endPhrase chunk)) =
              some e2 →
            (findChunkTimestamps chunk raw).2 = formatTimestamp (e2.start + e2.duration))) := by
  refine ⟨fun h => ?_, fun h => ?_, fun e he => ?_⟩
  · rw [findChunkTimestamps, if_pos h]
  · by_cases hr : raw = []
    · rw [findChunkTimestamps, if_pos hr]
    · rw [findChunkTimestamps, if_neg hr]
      rw [List.find?_eq_none.mpr (by simpa using h)]
  · have hr : raw ≠ [] := by
      intro h
      subst h
      simp at he
    refine ⟨?_, fun h2 => ?_, fun e2 he2 => ?_⟩
    · rw [findChunkTimestamps, if_neg hr, he]
      cases h' : raw.find? (fun e2 => strContains (lowerStr e2.text) (endPhrase chunk)) <;> rfl
    · rw [findChunkTimestamps, if_neg hr, he,
        List.find?_eq_none.mpr (by simpa using h2)]
    · rw [findChunkTimestamps, if_neg hr, he, he2]

/-- C3 witness: a start match at 60s and an end match at 100s + 2s. -/
theorem c3_witness :
    (findChunkTimestamps (lit "a b c d e f")
        [{ text := lit "z z", start := 7, duration := 1 },
         { text := lit "a b c d e x", start := 60, duration := 5 },
         { text := lit "y b c d e f", start := 100, duration := 2 }]).1 =
      formatTimestamp 60
    ∧ (findChunkTimestamps (lit "a b c d e f")
        [{ text := lit "z z", start := 7, duration := 1 },
         { text := lit "a b c d e x", start := 60, duration := 5 },
         { text := lit "y b c d e f", start := 100, duration := 2 }]).2 =
      formatTimestamp ((100 : ℚ) + 2) := by
  have T := c3_timestamp_alignment (lit "a b c d e f")
    [{ text := lit "z z", start := 7, duration := 1 },
     { text := lit "a b c d e x", start := 60, duration := 5 },
     { text := lit "y b c d e f", start := 100, duration := 2 }]
  exact ⟨(T.2.2 { text := lit "a b c d e x", start := 60, duration := 5 } (by decide)).1,
    (T.2.2 { text := lit "a b c d e x", start := 60, duration := 5 } (by decide)).2.2
      { text := lit "y b c d e f", start := 100, duration := 2 } (by decide)⟩

/-! ## Dict lemmas -/

theorem contains_keys_iff {β : Type} (m : List (String × β)) (k : String) :
    (dictKeys m).contains k = true ↔ ∃ p ∈ m, p.1 = k := by
  simp [List.contains, List.elem_iff, dictKeys]

theorem dictFind_cons {β : Type} (p : String × β) (m : List (String × β)) (k : String) :
    dictFind (p :: m) k = if p.1 = k then some p.2 else dictFind m k := by
  unfold dictFind
  by_cases h : p.1 = k
  · rw [List.find?_cons_of_pos _ (by simpa using h), if_pos h]
    rfl
  · rw [List.find?_cons_of_neg _ (by simpa using h), if_neg h]

theorem dictFind_dictSet_self {β : Type} (m : List (String × β)) (k : String) (v : β) :
    dictFind (dictSet m k v) k = some v := by
  unfold dictSet
  by_cases hc : (dictKeys m).contains k = true
  · rw [if_pos hc]
    induction m with
    | nil => simp [dictKeys, List.contains] at hc
    | cons p rest ih =>
      by_cases h : p.1 = k
      · rw [List.map_cons, if_pos h, dictFind_cons, if_pos rfl]
      · rw [List.map_cons, if_neg h, dictFind_cons, if_neg h]
        apply ih
        rcases (contains_keys_iff _ _).mp hc with ⟨q, hq, hqk⟩
        rcases List.mem_cons.mp hq with hq | hq
        · exact absurd (hq ▸ hqk) h
        · exact (contains_keys_iff _ _).mpr ⟨q, hq, hqk⟩
  · rw [if_neg hc]
    induction m with
    | nil => simp [dictFind]
    | cons p rest ih =>
      have hp : p.1 ≠ k := by
        intro h
        exact hc ((contains_keys_iff _ _).mpr ⟨p, List.mem_cons_self _ _, h⟩)
      rw [List.cons_append, dictFind_cons, if_neg hp]
      apply ih
      intro h
      rcases (contains_keys_iff _ _).mp h with ⟨q, hq, hqk⟩
      exact hc ((contains_keys_iff _ _).mpr ⟨q, List.mem_cons_of_mem _ hq, hqk⟩)

theorem dictFind_dictSet_ne {β : Type} (m : List (String × β)) (k k' : String) (v : β)
    (h : k' ≠ k) : dictFind (dictSet m k v) k' = dictFind m k' := by
  unfold dictSet
  by_cases hc : (dictKeys m).contains k = true
  · rw [if_pos hc]
    clear hc
    induction m with
    | nil => rfl
    | cons p rest ih =>
      rw [List.map_cons]
      by_cases hp : p.1 = k
      · rw [if_pos hp, dictFind_cons, dictFind_cons, if_neg (fun hk => h hk.symm),
          if_neg (fun hk => h (hk.symm.trans hp)), ih]
      · rw [if_neg hp, dictFind_cons, dictFind_cons, ih]
  · rw [if_neg hc]
    clear hc
    induction m with
    | nil =>
      rw [List.nil_append, dictFind_cons, if_neg (fun hk => h hk.symm)]
    | cons p rest ih =>
      rw [List.cons_append, dictFind_cons, dictFind_cons, ih]

theorem dictSet_dictSet_same {β : Type} (m : List (String × β)) (k : String) (v : β) :
    dictSet (dictSet m k v) k v = dictSet m k v := by
  have hkeys : ∀ (l : List (String × β)),
      dictKeys (l.map (fun p => if p.1 = k then (k, v) else p)) = dictKeys l := by
    intro l
    unfold dictKeys
    rw [List.map_map]
    apply List.map_congr_left
    intro p _
    by_cases h : p.1 = k
    · simp [h]
    · simp [h]
  by_cases hc : (dictKeys m).contains k = true
  · have h1 : dictSet m k v = m.map (fun p => if p.1 = k then (k, v) else p) := by
      rw [dictSet, if_pos hc]
    have hc2 : (dictKeys (m.map (fun p => if p.1 = k then (k, v) else p))).contains k
        = true := by
      rw [hkeys]
      exact hc
    rw [h1, dictSet, if_pos hc2, List.map_map]
    apply List.map_congr_left
    intro p _
    by_cases h : p.1 = k <;> simp [h]
  · have h1 : dictSet m k v = m ++ [(k, v)] := by
      rw [dictSet, if_neg hc]
    have hc2 : (dictKeys (m ++ [(k, v)])).contains k = true :=
      (contains_keys_iff _ _).mpr ⟨(k, v), by simp, rfl⟩
    rw [h1, dictSet, if_pos hc2, List.map_append]
    have hm : ∀ p ∈ m, p.1 ≠ k := by
      intro p hp hk
      exact hc ((contains_keys_iff _ _).mpr ⟨p, hp, hk⟩)
    congr 1
    · have h2 : m.map (fun p => if p.1 = k then (k, v) else p) = m.map id :=
        List.map_congr_left (fun p hp => by rw [if_neg (hm p hp)]; rfl)
      rw [h2, List.map_id]
    · simp

/-! ## C9: insert idempotence and last-write-wins -/

theorem addVector_ok {db : VectorDatabase} {id : String} {v : Vec} {md : Metadata}
    {db' : VectorDatabase} (h : addVector db id v md = .ok db') :
    v.length = db.dimension ∧
    db' = { db with vectors := dictSet db.vectors id v,
                    metadata := dictSet db.metadata id md, index_dirty := true } := by
  unfold addVector at h
  by_cases hlen : v.length ≠ db.dimension
  · rw [if_pos hlen] at h
    exact absurd h (by simp)
  · rw [if_neg hlen] at h
    injection h with h'
    exact ⟨not_not.mp hlen, h'.symm⟩

/-- C9: inserting the same `(id, vector, metadata)` twice in a row leaves the
index in exactly the state of inserting it once (hence identical search
results), and inserting a different `(vector, metadata)` under an existing id
fully replaces the prior entry and touches no other id. -/
theorem c9_insert_idempotent_last_write_wins (db db' db'' : VectorDatabase)
    (id : String) (v v₂ : Vec) (md md₂ : Metadata)
    (h1 : addVector db id v md = .ok db')
    (h2 : addVector db' id v md = .ok db'') :
    (db'' = db' ∧ ∀ q k t, searchSimilar db'' q k t = searchSimilar db' q k t)
    ∧ (∀ dbR, addVector db' id v₂ md₂ = .ok dbR →
        dictFind dbR.vectors id = some v₂ ∧ dictFind dbR.metadata id = some md₂ ∧
        ∀ id', id' ≠ id →
          dictFind dbR.vectors id' = dictFind db'.vectors id' ∧
          dictFind dbR.metadata id' = dictFind db'.metadata id') := by
  obtain ⟨hl1, hdb'⟩ := addVector_ok h1
  obtain ⟨hl2, hdb''⟩ := addVector_ok h2
  have heq : db'' = db' := by
    rw [hdb'', hdb']
    simp only [dictSet_dictSet_same]
  refine ⟨⟨heq, fun q k t => by rw [heq]⟩, fun dbR hR => ?_⟩
  obtain ⟨hlR, hdbR⟩ := addVector_ok hR
  rw [hdbR]
  exact ⟨dictFind_dictSet_self _ _ _, dictFind_dictSet_self _ _ _,
    fun id' hne => ⟨dictFind_dictSet_ne _ _ _ _ hne, dictFind_dictSet_ne _ _ _ _ hne⟩⟩

/-- C9 witness: a concrete double insert followed by an overwrite. -/
theorem c9_witness :
    (let db : VectorDatabase :=
      { dimension := 2, vectors := [], metadata := [], index_dirty := false }
     let db' : VectorDatabase :=
      { dimension := 2, vectors := [("a", [1, 2])],
        metadata := [("a", [("content", "c")])], index_dirty := true }
     addVector db "a" [1, 2] [("content", "c")] = .ok db'
     ∧ addVector db' "a" [1, 2] [("content", "c")] = .ok db'
     ∧ ∀ dbR, addVector db' "a" [3, 4] [("content", "d")] = .ok dbR →
         dictFind dbR.vectors "a" = some [3, 4]) := by
  refine ⟨rfl, ?_, ?_⟩
  · have h := (c9_insert_idempotent_last_write_wins
      { dimension := 2, vectors := [], metadata := [], index_dirty := false }
      { dimension := 2, vectors := [("a", [1, 2])],
        metadata := [("a", [("content", "c")])], index_dirty := true }
      { dimension := 2, vectors := [("a", [1, 2])],
        metadata := [("a", [("content", "c")])], index_dirty := true }
      "a" [1, 2] [3, 4] [("content", "c")] [("content", "d")] rfl rfl).1.1
    exact rfl
  · intro dbR hR
    exact ((c9_insert_idempotent_last_write_wins
      { dimension := 2, vectors := [], metadata := [], index_dirty := false }
      { dimension := 2, vectors := [("a", [1, 2])],
        metadata := [("a", [("content", "c")])], index_dirty := true }
      { dimension := 2, vectors := [("a", [1, 2])],
        metadata := [("a", [("content", "c")])], index_dirty := true }
      "a" [1, 2] [3, 4] [("content", "c")] [("content", "d")] rfl rfl).2 dbR hR).1

/-! ## C10: the vectors map and the metadata map always hold the same ids -/

theorem dictKeys_dictSet {β : Type} (m : List (String × β)) (k : String) (v : β) :
    dictKeys (dictSet m k v) =
      if (dictKeys m).contains k then dictKeys m else dictKeys m ++ [k] := by
  unfold dictSet
  by_cases hc : (dictKeys m).contains k = true
  · rw [if_pos hc, if_pos hc]
    unfold dictKeys
    rw [List.map_map]
    apply List.map_congr_left
    intro p _
    by_cases h : p.1 = k <;> simp [h]
  · rw [if_neg hc, if_neg hc]
    simp [dictKeys]

theorem dictKeys_dictPop {β : Type} (m : List (String × β)) (id : String) :
    dictKeys (dictPop m id) = (dictKeys m).filter (fun k => k ≠ id) := by
  unfold dictKeys dictPop
  rw [List.filter_map]
  rfl

theorem keysEq_removeVector {db : VectorDatabase} (h : keysEq db) (id : String) :
    keysEq (removeVector db id) := by
  unfold keysEq removeVector at *
  show dictKeys (dictPop db.vectors id) = dictKeys (dictPop db.metadata id)
  rw [dictKeys_dictPop, dictKeys_dictPop, h]

theorem keysEq_applyOp {db : VectorDatabase} (h : keysEq db) (op : DbOp) :
    keysEq (applyOp db op) := by
  cases op with
  | insert id v md =>
    show keysEq (match addVector db id v md with
      | Except.ok db' => db'
      | Except.error _ => db)
    cases hav : addVector db id v md with
    | error e => exact h
    | ok db' =>
      obtain ⟨hlen, hdb'⟩ := addVector_ok hav
      subst hdb'
      show dictKeys (dictSet db.vectors id v) = dictKeys (dictSet db.metadata id md)
      rw [dictKeys_dictSet, dictKeys_dictSet, h]
  | remove id => exact keysEq_removeVector h id
  | removeByMeta key value =>
    show keysEq (List.foldl removeVector db
      ((db.metadata.filter (fun p => dictFind p.2 key == some value)).map Prod.fst))
    generalize (db.metadata.filter (fun p => dictFind p.2 key == some value)).map Prod.fst = l
    induction l generalizing db with
    | nil => exact h
    | cons x xs ih => exact ih (keysEq_removeVector h x)
  | clear => rfl

/-- C10: after any sequence of insert / remove / remove-by-metadata / clear
operations starting from the empty index, the ids present in the vectors map
and in the metadata map coincide; an insert with a wrong-length vector
changes neither map. -/
theorem c10_vectors_metadata_ids_agree (ops : List DbOp) :
    (∀ id, id ∈ dictKeys (applyOps VectorDatabase.init ops).vectors ↔
           id ∈ dictKeys (applyOps VectorDatabase.init ops).metadata)
    ∧ ∀ (db : VectorDatabase) (id : String) (v : Vec) (md : Metadata),
        v.length ≠ db.dimension → applyOp db (.insert id v md) = db := by
  constructor
  · have h : keysEq (applyOps VectorDatabase.init ops) := by
      have base : keysEq VectorDatabase.init := rfl
      unfold applyOps
      generalize VectorDatabase.init = db0 at base ⊢
      induction ops generalizing db0 with
      | nil => exact base
      | cons op rest ih => exact ih _ (keysEq_applyOp base op)
    intro id
    rw [keysEq] at h
    rw [h]
  · intro db id v md hlen
    show (match addVector db id v md with
      | Except.ok db' => db'
      | Except.error _ => db) = db
    cases hav : addVector db id v md with
    | error e => rfl
    | ok db' => exact absurd (addVector_ok hav).1 hlen

/-- C10 witness: a concrete wrong-length insert is a no-op, and the key sets
agree after a concrete operation sequence. -/
theorem c10_witness :
    ([(3 : ℚ)].length ≠ VectorDatabase.init.dimension)
    ∧ applyOp VectorDatabase.init (.insert "x" [3] []) = VectorDatabase.init
    ∧ (("a" ∈ dictKeys (applyOps VectorDatabase.init
          [.insert "a" (List.replicate 1536 1) [("source_id", "v1")],
           .remove "b"]).vectors) ↔
       ("a" ∈ dictKeys (applyOps VectorDatabase.init
          [.insert "a" (List.replicate 1536 1) [("source_id", "v1")],
           .remove "b"]).metadata)) := by
  refine ⟨by decide, ?_, ?_⟩
  · exact (c10_vectors_metadata_ids_agree []).2 VectorDatabase.init "x" [3] [] (by decide)
  · exact (c10_vectors_metadata_ids_agree
      [.insert "a" (List.replicate 1536 1) [("source_id", "v1")], .remove "b"]).1 "a"

/-! ## C2: chunk size bound -/

theorem strip_length_le (s : Str) : (strip s).length ≤ s.length := by
  unfold strip
  calc ((s.dropWhile Char.isWhitespace).reverse.dropWhile Char.isWhitespace).reverse.length
      = ((s.dropWhile Char.isWhitespace).reverse.dropWhile Char.isWhitespace).length := by
        rw [List.length_reverse]
    _ ≤ (s.dropWhile Char.isWhitespace).reverse.length :=
        (List.dropWhile_sublist _).length_le
    _ = (s.dropWhile Char.isWhitespace).length := by rw [List.length_reverse]
    _ ≤ s.length := (List.dropWhile_sublist _).length_le

theorem takeLast_length (n : Nat) (l : Str) (h : n ≤ l.length) :
    (takeLast n l).length = n := by
  unfold takeLast
  rw [List.length_drop]
  omega

theorem splitOnAux_ne_nil (sep : Str) (fuel : Nat) (s acc : Str) :
    splitOnAux sep fuel s acc ≠ [] := by
  cases fuel with
  | zero => simp [splitOnAux]
  | succ n =>
    cases s with
    | nil => simp [splitOnAux]
    | cons c rest =>
      rw [splitOnAux]
      by_cases h : sep.isPrefixOf (c :: rest) = true
      · rw [if_pos h]
        simp
      · rw [if_neg h]
        exact splitOnAux_ne_nil sep n rest (c :: acc)

theorem joinSep_cons_cons (sep x y : Str) (ys : List Str) :
    joinSep sep (x :: y :: ys) = x ++ sep ++ joinSep sep (y :: ys) := rfl

theorem joinSep_splitOnAux (sep : Str) (fuel : Nat) :
    ∀ (s acc : Str), joinSep sep (splitOnAux sep fuel s acc) = acc.reverse ++ s := by
  induction fuel with
  | zero => intro s acc; rfl
  | succ n ih =>
    intro s acc
    cases s with
    | nil => simp [splitOnAux, joinSep]
    | cons c rest =>
      rw [splitOnAux]
      by_cases h : sep.isPrefixOf (c :: rest) = true
      · rw [if_pos h]
        obtain ⟨t, ht⟩ := List.isPrefixOf_iff_prefix.mp h
        obtain ⟨b, bs, hbs⟩ : ∃ b bs, splitOnAux sep n ((c :: rest).drop sep.length) [] =
            b :: bs := by
          cases hsp : splitOnAux sep n ((c :: rest).drop sep.length) [] with
          | nil => exact absurd hsp (splitOnAux_ne_nil _ _ _ _)
          | cons b bs => exact ⟨b, bs, rfl⟩
        rw [hbs, joinSep_cons_cons]
        have hjoin := ih ((c :: rest).drop sep.length) []
        rw [hbs] at hjoin
        rw [hjoin]
        have hdrop : (c :: rest).drop sep.length = t := by
          rw [← ht, List.drop_left]
        rw [hdrop, List.reverse_nil, List.nil_append, List.append_assoc, ht]
      · rw [if_neg h, ih rest (c :: acc)]
        simp

theorem joinSep_splitOnSep (sep s : Str) : joinSep sep (splitOnSep sep s) = s := by
  unfold splitOnSep
  rw [joinSep_splitOnAux]
  rfl

theorem getOverlapText_eq (c : TextChunker) (text : Str)
    (h : ¬ text.length ≤ c.chunk_overlap) :
    getOverlapText c text =
      (if (if 1 < (splitOnSep [' '] (takeLast c.chunk_overlap text)).length
           then joinSep [' '] ((splitOnSep [' '] (takeLast c.chunk_overlap text)).drop 1)
           else takeLast c.chunk_overlap text) = []
       then []
       else (if 1 < (splitOnSep [' '] (takeLast c.chunk_overlap text)).length
             then joinSep [' '] ((splitOnSep [' '] (takeLast c.chunk_overlap text)).drop 1)
             else takeLast c.chunk_overlap text) ++ [' ']) := by
  rw [getOverlapText, if_neg h]

theorem getOverlapText_length_le (c : TextChunker) (text : Str) :
    (getOverlapText c text).length ≤ c.chunk_overlap + 1 := by
  by_cases h : text.length ≤ c.chunk_overlap
  · rw [getOverlapText, if_pos h, List.length_append]
    simp
    omega
  · rw [getOverlapText_eq c text h]
    have hlen : (takeLast c.chunk_overlap text).length = c.chunk_overlap :=
      takeLast_length _ _ (by omega)
    have hJ : (if 1 < (splitOnSep [' '] (takeLast c.chunk_overlap text)).length
               then joinSep [' '] ((splitOnSep [' '] (takeLast c.chunk_overlap text)).drop 1)
               else takeLast c.chunk_overlap text).length ≤ c.chunk_overlap := by
      by_cases hc : 1 < (splitOnSep [' '] (takeLast c.chunk_overlap text)).length
      · rw [if_pos hc]
        obtain ⟨c0, c1, cs, hcands⟩ : ∃ c0 c1 cs,
            splitOnSep [' '] (takeLast c.chunk_overlap text) = c0 :: c1 :: cs := by
          cases h1 : splitOnSep [' '] (takeLast c.chunk_overlap text) with
          | nil => rw [h1] at hc; simp at hc
          | cons c0 rest =>
            cases rest with
            | nil => rw [h1] at hc; simp at hc
            | cons c1 cs => exact ⟨c0, c1, cs, rfl⟩
        have hjoin := joinSep_splitOnSep [' '] (takeLast c.chunk_overlap text)
        rw [hcands] at hjoin ⊢
        rw [joinSep_cons_cons] at hjoin
        simp only [List.drop_one, List.tail_cons]
        have hl := congrArg List.length hjoin
        rw [hlen] at hl
        simp only [List.length_append, List.length_cons, List.length_nil] at hl
        omega
      · rw [if_neg hc, hlen]
    by_cases hz : (if 1 < (splitOnSep [' '] (takeLast c.chunk_overlap text)).length
                   then joinSep [' ']
                     ((splitOnSep [' '] (takeLast c.chunk_overlap text)).drop 1)
                   else takeLast c.chunk_overlap text) = []
    · rw [if_pos hz]
      simp
    · rw [if_neg hz, List.length_append]
      simp only [List.length_cons, List.length_nil]
      omega

theorem chunkLoop_bound (recSub : Str → List Str) (sep : Str) (hsep : sep.length ≤ 2) :
    ∀ (pieces chunks : List Str) (current : Str),
      (∀ u ∈ pieces, u.length ≤ 799) →
      (∀ ch ∈ chunks, ch.length ≤ 1000) →
      current.length ≤ 1000 →
      (∀ ch ∈ (chunkLoop defaultChunker sep recSub pieces chunks current).1,
        ch.length ≤ 1000)
      ∧ (chunkLoop defaultChunker sep recSub pieces chunks current).2.length ≤ 1000 := by
  intro pieces
  induction pieces with
  | nil =>
    intro chunks current _ hchunks hcur
    exact ⟨hchunks, hcur⟩
  | cons piece rest ih =>
    intro chunks current hp hchunks hcur
    have hpl : piece.length ≤ 799 := hp piece (List.mem_cons_self _ _)
    have hrest : ∀ u ∈ rest, u.length ≤ 799 :=
      fun u hu => hp u (List.mem_cons_of_mem _ hu)
    rw [chunkLoop]
    by_cases hbig : defaultChunker.chunk_size < current.length + piece.length + sep.length
    · rw [if_pos hbig]
      by_cases hcur0 : current ≠ []
      · rw [if_pos hcur0]
        apply ih _ _ hrest
        · intro ch hch
          rcases List.mem_append.mp hch with h | h
          · exact hchunks ch h
          · rw [List.mem_singleton.mp h]
            exact le_trans (strip_length_le current) hcur
        · rw [List.length_append]
          have hov := getOverlapText_length_le defaultChunker current
          have h201 : defaultChunker.chunk_overlap + 1 = 201 := rfl
          omega
      · exfalso
        rw [not_not] at hcur0
        rw [hcur0] at hbig
        have h1000 : defaultChunker.chunk_size = 1000 := rfl
        simp only [List.length_nil] at hbig
        omega
    · rw [if_neg hbig]
      by_cases hcur0 : current ≠ []
      · rw [if_pos hcur0]
        apply ih _ _ hrest hchunks
        rw [List.length_append, List.length_append]
        have h1000 : defaultChunker.chunk_size = 1000 := rfl
        omega
      · rw [if_neg hcur0]
        exact ih _ _ hrest hchunks (by omega)

set_option maxRecDepth 200000

/-- C2, counterexample: a 1755-character transcript containing the `". "`
separator (so the character-slicing fallback is not taken) for which the
separator path emits a middle passage of 1051 > 1000 characters, because the
passage seeded with the overlap prefix of the previous passage plus a large
unit is closed without being re-split (text_chunker.py lines 70-73). -/
theorem c2_counterexample :
    1000 < (List.replicate 900 'a' ++ lit ". " ++ List.replicate 850 'b' ++ lit ". "
      ++ ['c']).length
    ∧ defaultChunker.separators.find?
        (fun s => strContains (List.replicate 900 'a' ++ lit ". " ++ List.replicate 850 'b'
          ++ lit ". " ++ ['c']) s) = some (lit ". ")
    ∧ (recursiveSplit defaultChunker (List.replicate 900 'a' ++ lit ". "
        ++ List.replicate 850 'b' ++ lit ". " ++ ['c'])).map List.length =
      [900, 1051, 202] := by
  refine ⟨by decide, by decide, by decide⟩

/-- C2, amended: when the input is longer than `target_size`, a priority
separator is present, and every separator-delimited unit of the first
applicable separator is at most `target_size − overlap − 1` (799) characters,
every emitted passage is at most `target_size` (1000) characters. In general
a passage seeded with an overlap prefix may exceed `target_size` even on the
separator path (the counterexample reaches 1051), so the bound does not hold
unconditionally as claimed. -/
theorem c2_chunk_size_bound (text sep : Str)
    (hlong : 1000 < text.length)
    (hfind : defaultChunker.separators.find? (fun s => strContains text s) = some sep)
    (hunits : ∀ u ∈ splitOnSep sep text, u.length ≤ 799) :
    ∀ ch ∈ recursiveSplit defaultChunker text, ch.length ≤ 1000 := by
  have hsep : sep.length ≤ 2 := by
    have hmem := List.mem_of_find?_eq_some hfind
    have hall : ∀ s ∈ defaultChunker.separators, s.length ≤ 2 := by decide
    exact hall sep hmem
  intro ch hch
  obtain ⟨n, hn⟩ : ∃ n, text.length = n + 1 := ⟨text.length - 1, by omega⟩
  rw [recursiveSplit, hn, recursiveSplitFuel,
    if_neg (show ¬ text.length ≤ defaultChunker.chunk_size by
      have : defaultChunker.chunk_size = 1000 := rfl
      omega), hfind] at hch
  obtain ⟨hchunks, hcur⟩ := chunkLoop_bound (fun t => recursiveSplitFuel defaultChunker n t)
    sep hsep (splitOnSep sep text) [] [] hunits (by simp) (by simp)
  have hch2 : ch ∈ (if (chunkLoop defaultChunker sep
        (fun t => recursiveSplitFuel defaultChunker n t) (splitOnSep sep text) [] []).2 ≠ []
      then (chunkLoop defaultChunker sep (fun t => recursiveSplitFuel defaultChunker n t)
          (splitOnSep sep text) [] []).1
        ++ [strip (chunkLoop defaultChunker sep
            (fun t => recursiveSplitFuel defaultChunker n t) (splitOnSep sep text) [] []).2]
      else (chunkLoop defaultChunker sep (fun t => recursiveSplitFuel defaultChunker n t)
          (splitOnSep sep text) [] []).1) := hch
  by_cases hcur0 : (chunkLoop defaultChunker sep
      (fun t => recursiveSplitFuel defaultChunker n t) (splitOnSep sep text) [] []).2 ≠ []
  · rw [if_pos hcur0] at hch2
    rcases List.mem_append.mp hch2 with h | h
    · exact hchunks ch h
    · rw [List.mem_singleton.mp h]
      exact le_trans (strip_length_le _) hcur
  · rw [if_neg hcur0] at hch2
    exact hchunks ch hch2

/-- C2 witness: three 400-character units joined by `". "` (1204 characters in
total) chunk into passages of 802 and 601 characters, both within bound. -/
theorem c2_witness :
    (1000 < (List.replicate 400 'a' ++ lit ". " ++ List.replicate 400 'a' ++ lit ". "
      ++ List.replicate 400 'a').length)
    ∧ (∀ ch ∈ recursiveSplit defaultChunker (List.replicate 400 'a' ++ lit ". "
        ++ List.replicate 400 'a' ++ lit ". " ++ List.replicate 400 'a'),
        ch.length ≤ 1000) := by
  refine ⟨by decide, ?_⟩
  apply c2_chunk_size_bound _ (lit ". ") (by decide)
  · decide
  · decide

/-! ## C1: search filter, truncation, ordering, and tie-breaking -/

theorem simDesc_trans (a b c : SearchResult) (hab : simDesc a b = true)
    (hbc : simDesc b c = true) : simDesc a c = true := by
  simp only [simDesc, decide_eq_true_eq] at *
  exact le_trans hbc hab

theorem simDesc_total (a b : SearchResult) : (simDesc a b || simDesc b a) = true := by
  simp only [simDesc, Bool.or_eq_true, decide_eq_true_eq]
  exact le_total b.similarity a.similarity

theorem pairwise_indexOf_lt (l : List String) (h : l.Nodup) :
    l.Pairwise (fun x y => l.indexOf x < l.indexOf y) := by
  induction l with
  | nil => exact List.Pairwise.nil
  | cons a t ih =>
    obtain ⟨ha, ht⟩ := List.nodup_cons.mp h
    refine List.Pairwise.cons ?_ ?_
    · intro y hy
      rw [List.indexOf_cons_self,
        List.indexOf_cons_ne t (show a ≠ y from fun h' => ha (h' ▸ hy))]
      exact Nat.succ_pos _
    · refine (ih ht).imp_of_mem ?_
      intro x y hx hy hxy
      have hax : a ≠ x := fun h' => ha (h' ▸ hx)
      have hay : a ≠ y := fun h' => ha (h' ▸ hy)
      rw [List.indexOf_cons_ne t hax, List.indexOf_cons_ne t hay]
      exact Nat.succ_lt_succ hxy

theorem mem_pair_sublist {α : Type} {l : List α} {a b : α} (ha : a ∈ l) (hb : b ∈ l)
    (hne : a ≠ b) : [a, b].Sublist l ∨ [b, a].Sublist l := by
  induction l with
  | nil => cases ha
  | cons c t ih =>
    rcases List.mem_cons.mp ha with rfl | hat
    · have hbt : b ∈ t := by
        rcases List.mem_cons.mp hb with h | h
        · exact absurd h.symm hne
        · exact h
      exact Or.inl (List.Sublist.cons₂ _ (List.singleton_sublist.mpr hbt))
    · rcases List.mem_cons.mp hb with rfl | hbt
      · exact Or.inr (List.Sublist.cons₂ _ (List.singleton_sublist.mpr hat))
      · rcases ih hat hbt with h | h
        · exact Or.inl (h.cons _)
        · exact Or.inr (h.cons _)

theorem nodup_pairwise_not_swap {α : Type} {l : List α} (h : l.Nodup) :
    l.Pairwise (fun a b => ¬ [b, a].Sublist l) := by
  induction l with
  | nil => exact List.Pairwise.nil
  | cons a t ih =>
    obtain ⟨ha, ht⟩ := List.nodup_cons.mp h
    refine List.Pairwise.cons ?_ ?_
    · intro y hy hs
      cases hs with
      | cons _ hs' => exact ha (List.Sublist.mem (by simp) hs')
      | cons₂ _ hs' => exact ha (List.singleton_sublist.mp hs')
    · refine (ih ht).imp_of_mem ?_
      intro x y hx hy hns hs
      cases hs with
      | cons _ hs' => exact hns hs'
      | cons₂ _ _ => exact ha hy
    -- the `cons₂` case above unifies `y` with `a`, so `hy : a ∈ t` contradicts `ha`

/-- C1: on a populated index with distinct ids, searching with a query of the
index's dimension succeeds and returns only entries with `similarity ≥
threshold`, at most `top_k` of them, sorted by similarity descending, with
ties broken by insertion order (earlier-inserted id first). -/
theorem c1_search_similar_spec (db : VectorDatabase) (qv : Vec) (top_k : Nat)
    (threshold : ℝ) (hdim : qv.length = db.dimension) (hpop : db.vectors ≠ [])
    (hnodup : (dictKeys db.vectors).Nodup) :
    ∃ results, searchSimilar db qv top_k threshold = .ok results
      ∧ (∀ r ∈ results, threshold ≤ r.similarity)
      ∧ results.length ≤ top_k
      ∧ results.Pairwise (fun a b => b.similarity ≤ a.similarity)
      ∧ results.Pairwise (fun a b =>
          a.similarity = b.similarity → keyIndex db a.id < keyIndex db b.id) := by
  set f : String × Vec → Option SearchResult := fun p =>
    if threshold ≤ cosineSimilarity qv p.2 then
      some { id := p.1, similarity := cosineSimilarity qv p.2,
             metadata := (dictFind db.metadata p.1).getD [] }
    else none with hf
  have heq : searchSimilar db qv top_k threshold =
      .ok (((db.vectors.filterMap f).mergeSort simDesc).take top_k) := by
    rw [searchSimilar, if_neg (fun h => h hdim),
      if_neg (show ¬ db.vectors.isEmpty = true by
        simpa [List.isEmpty_iff] using hpop)]
  have hids : ∀ p a, f p = some a →
      a.id = p.1 ∧ a.similarity = cosineSimilarity qv p.2 := by
    intro p a hfp
    rw [hf] at hfp
    by_cases hc : threshold ≤ cosineSimilarity qv p.2
    · simp only [if_pos hc] at hfp
      injection hfp with h
      rw [← h]
      exact ⟨rfl, rfl⟩
    · simp only [if_neg hc] at hfp
      cases hfp
  have hthr : ∀ r ∈ db.vectors.filterMap f, threshold ≤ r.similarity := by
    intro r hr
    obtain ⟨p, hp, hfp⟩ := List.mem_filterMap.mp hr
    by_cases hc : threshold ≤ cosineSimilarity qv p.2
    · rw [(hids p r hfp).2]
      exact hc
    · rw [hf] at hfp
      simp only [if_neg hc] at hfp
      cases hfp
  have hkeyF : (db.vectors.filterMap f).Pairwise
      (fun a b => keyIndex db a.id < keyIndex db b.id) := by
    rw [List.pairwise_filterMap]
    have hkeyV : db.vectors.Pairwise
        (fun p p' => keyIndex db p.1 < keyIndex db p'.1) := by
      have h1 := pairwise_indexOf_lt (dictKeys db.vectors) hnodup
      unfold dictKeys at h1
      rw [List.pairwise_map] at h1
      exact h1
    refine hkeyV.imp_of_mem ?_
    intro p p' hp hp' hlt a ha b hb
    rw [(hids p a (Option.mem_def.mp ha)).1, (hids p' b (Option.mem_def.mp hb)).1]
    exact hlt
  have hnodupF : (db.vectors.filterMap f).Nodup :=
    hkeyF.imp (fun h hab => by rw [hab] at h; exact lt_irrefl _ h)
  have hperm := List.mergeSort_perm (db.vectors.filterMap f) simDesc
  have hnodupS : ((db.vectors.filterMap f).mergeSort simDesc).Nodup :=
    hperm.nodup_iff.mpr hnodupF
  have htie : ((db.vectors.filterMap f).mergeSort simDesc).Pairwise
      (fun a b => a.similarity = b.similarity → keyIndex db a.id < keyIndex db b.id) := by
    refine (List.Pairwise.and hnodupS (nodup_pairwise_not_swap hnodupS)).imp_of_mem ?_
    intro a b ha hb hR heq2
    obtain ⟨hne, hnsw⟩ := hR
    have ha' : a ∈ db.vectors.filterMap f := List.mem_mergeSort.mp ha
    have hb' : b ∈ db.vectors.filterMap f := List.mem_mergeSort.mp hb
    rcases mem_pair_sublist ha' hb' hne with hab | hba
    · have h2 : List.Pairwise (fun x y : SearchResult =>
          keyIndex db x.id < keyIndex db y.id) [a, b] :=
        List.Pairwise.sublist hab hkeyF
      exact List.rel_of_pairwise_cons h2 (List.mem_singleton.mpr rfl)
    · exact absurd (List.pair_sublist_mergeSort simDesc_trans simDesc_total
        (by simp only [simDesc, decide_eq_true_eq]; exact le_of_eq heq2) hba) hnsw
  have hsorted := List.sorted_mergeSort simDesc_trans simDesc_total
    (db.vectors.filterMap f)
  refine ⟨_, heq, ?_, List.length_take_le _ _, ?_, ?_⟩
  · intro r hr
    exact hthr r (List.mem_mergeSort.mp (List.Sublist.mem hr (List.take_sublist _ _)))
  · exact (List.Pairwise.sublist (List.take_sublist _ _) hsorted).imp
      (fun h => by simpa [simDesc, decide_eq_true_eq] using h)
  · exact List.Pairwise.sublist (List.take_sublist _ _) htie

/-- C1 witness: the spec's own scenario (D = 3, ids "a", "b", "c"). -/
theorem c1_witness :
    ([(1 : ℚ), 0, 0].length =
      (VectorDatabase.mk 3 [("a", [1, 0, 0]), ("b", [0, 1, 0]), ("c", [1, 1, 0])]
        [("a", []), ("b", []), ("c", [])] true).dimension)
    ∧ ∃ results, searchSimilar
        (VectorDatabase.mk 3 [("a", [1, 0, 0]), ("b", [0, 1, 0]), ("c", [1, 1, 0])]
          [("a", []), ("b", []), ("c", [])] true) [1, 0, 0] 2 0 = .ok results
      ∧ (∀ r ∈ results, (0 : ℝ) ≤ r.similarity)
      ∧ results.length ≤ 2
      ∧ results.Pairwise (fun a b => b.similarity ≤ a.similarity) := by
  refine ⟨by decide, ?_⟩
  obtain ⟨results, h1, h2, h3, h4, _⟩ := c1_search_similar_spec
    (VectorDatabase.mk 3 [("a", [1, 0, 0]), ("b", [0, 1, 0]), ("c", [1, 1, 0])]
      [("a", []), ("b", []), ("c", [])] true) [1, 0, 0] 2 0
    (by decide) (by decide) (by decide)
  exact ⟨results, h1, h2, h3, h4⟩

/-! ## C7: re-ranking failure tolerance -/

/-- C7: if the query re-embedding fails, `_rerank` returns the candidates in
their original order, unchanged (no re-rank key is even attached); if it
succeeds, the output is a permutation of the candidates where a candidate
whose content embedding fails keeps its original similarity as its re-rank
score instead of being dropped, while candidates whose embedding succeeds are
re-scored with the secondary-model cosine similarity. -/
theorem c7_rerank_failure_tolerance (embR : String → Option Vec) (query : String)
    (cands : List SearchResult) :
    (embR query = none →
      (rerank embR query cands).map (fun e => e.res) = cands
      ∧ ∀ e ∈ rerank embR query cands, e.similarity_rerank = none)
    ∧ (∀ qe, embR query = some qe →
        ((rerank embR query cands).map (fun e => e.res)).Perm cands
        ∧ (∀ m ∈ cands,
            (embR (rerankInput m) = none →
              ∃ e ∈ rerank embR query cands,
                e.res = m ∧ e.similarity_rerank = some m.similarity)
          ∧ ∀ ce, embR (rerankInput m) = some ce →
              ∃ e ∈ rerank embR query cands,
                e.res = m ∧ e.similarity_rerank =
                  some (((dot qe ce : ℚ) : ℝ) / (vnorm qe * vnorm ce)))) := by
  constructor
  · intro hq
    rw [rerank, hq]
    constructor
    · rw [List.map_map]
      exact List.map_id cands
    · intro e he
      obtain ⟨m, _, hme⟩ := List.mem_map.mp he
      rw [← hme]
  · intro qe hq
    rw [rerank, hq]
    constructor
    · refine List.Perm.trans (List.Perm.map _ (List.mergeSort_perm _ _)) ?_
      rw [List.map_map]
      exact (List.map_id cands).symm ▸ List.Perm.refl _
    · intro m hm
      constructor
      · intro hce
        refine ⟨RerankEntry.mk m (some m.similarity), ?_, rfl, rfl⟩
        rw [List.mem_mergeSort]
        have : (fun m : SearchResult =>
            RerankEntry.mk m (some (match embR (rerankInput m) with
              | some chunk_emb => ((dot qe chunk_emb : ℚ) : ℝ) / (vnorm qe * vnorm chunk_emb)
              | none => m.similarity))) m
            = RerankEntry.mk m (some m.similarity) := by
          simp only [hce]
        exact this ▸ List.mem_map_of_mem _ hm
      · intro ce hce
        refine ⟨RerankEntry.mk m
          (some (((dot qe ce : ℚ) : ℝ) / (vnorm qe * vnorm ce))), ?_, rfl, rfl⟩
        rw [List.mem_mergeSort]
        have : (fun m : SearchResult =>
            RerankEntry.mk m (some (match embR (rerankInput m) with
              | some chunk_emb => ((dot qe chunk_emb : ℚ) : ℝ) / (vnorm qe * vnorm chunk_emb)
              | none => m.similarity))) m
            = RerankEntry.mk m
              (some (((dot qe ce : ℚ) : ℝ) / (vnorm qe * vnorm ce))) := by
          simp only [hce]
        exact this ▸ List.mem_map_of_mem _ hm

/-- C7 witness: a failing query embedding leaves the (single-candidate) list
untouched; with a succeeding query embedding, a candidate whose content
embedding fails keeps its original score. -/
theorem c7_witness :
    ((rerank (fun _ => none) "q"
        [{ id := "a", similarity := (1 : ℝ), metadata := [("content", "c")] }]).map
          (fun e => e.res) =
      [{ id := "a", similarity := (1 : ℝ), metadata := [("content", "c")] }])
    ∧ ∃ e ∈ rerank (fun s => if s = "q" then some [1] else none) "q"
        [{ id := "a", similarity := (1 : ℝ), metadata := [("content", "c")] }],
        e.res = { id := "a", similarity := (1 : ℝ), metadata := [("content", "c")] }
        ∧ e.similarity_rerank = some (1 : ℝ) := by
  constructor
  · exact ((c7_rerank_failure_tolerance (fun _ => none) "q"
      [{ id := "a", similarity := (1 : ℝ), metadata := [("content", "c")] }]).1 rfl).1
  · exact (((c7_rerank_failure_tolerance (fun s => if s = "q" then some [1] else none) "q"
      [{ id := "a", similarity := (1 : ℝ), metadata := [("content", "c")] }]).2 [1]
        (by decide)).2 _ (by simp)).1 (by decide)

/-! ## C6: hybrid search union, ordering, truncation -/

theorem mem_dictSet {β : Type} (m : List (String × β)) (k : String) (v : β)
    (p : String × β) (hp : p ∈ dictSet m k v) : p ∈ m ∨ p = (k, v) := by
  unfold dictSet at hp
  by_cases hc : (dictKeys m).contains k = true
  · rw [if_pos hc] at hp
    obtain ⟨q, hq, hqp⟩ := List.mem_map.mp hp
    by_cases h : q.1 = k
    · rw [if_pos h] at hqp
      exact Or.inr hqp.symm
    · rw [if_neg h] at hqp
      exact Or.inl (hqp ▸ hq)
  · rw [if_neg hc] at hp
    rcases List.mem_append.mp hp with h | h
    · exact Or.inl h
    · exact Or.inr (List.mem_singleton.mp h)

theorem mem_dictSet_self {β : Type} (m : List (String × β)) (k : String) (v : β) :
    (k, v) ∈ dictSet m k v := by
  unfold dictSet
  by_cases hc : (dictKeys m).contains k = true
  · rw [if_pos hc]
    obtain ⟨q, hq, hqk⟩ := (contains_keys_iff _ _).mp hc
    have h1 : (fun p : String × β => if p.1 = k then (k, v) else p) q = (k, v) := by
      show (if q.1 = k then (k, v) else q) = (k, v)
      rw [if_pos hqk]
    exact List.mem_map.mpr ⟨q, hq, h1⟩
  · rw [if_neg hc]
    exact List.mem_append.mpr (Or.inr (List.mem_singleton.mpr rfl))

theorem mem_dictSet_of_ne {β : Type} (m : List (String × β)) (k : String) (v : β)
    (p : String × β) (hp : p ∈ m) (hne : p.1 ≠ k) : p ∈ dictSet m k v := by
  unfold dictSet
  by_cases hc : (dictKeys m).contains k = true
  · rw [if_pos hc]
    have h1 : (fun q : String × β => if q.1 = k then (k, v) else q) p = p := by
      show (if p.1 = k then (k, v) else p) = p
      rw [if_neg hne]
    exact List.mem_map.mpr ⟨p, hp, h1⟩
  · rw [if_neg hc]
    exact List.mem_append.mpr (Or.inl hp)

theorem contains_dictSet_iff {β : Type} (m : List (String × β)) (k' : String) (v : β)
    (k : String) :
    (dictKeys (dictSet m k' v)).contains k = true ↔
      (dictKeys m).contains k = true ∨ k = k' := by
  constructor
  · intro h
    obtain ⟨p, hp, hpk⟩ := (contains_keys_iff _ _).mp h
    rcases mem_dictSet m k' v p hp with h' | h'
    · exact Or.inl ((contains_keys_iff _ _).mpr ⟨p, h', hpk⟩)
    · rw [h'] at hpk
      exact Or.inr hpk.symm
  · intro h
    rcases h with h | h
    · obtain ⟨p, hp, hpk⟩ := (contains_keys_iff _ _).mp h
      by_cases he : p.1 = k'
      · rw [← hpk, he]
        exact (contains_keys_iff _ _).mpr ⟨(k', v), mem_dictSet_self m k' v, rfl⟩
      · exact (contains_keys_iff _ _).mpr ⟨p, mem_dictSet_of_ne m k' v p hp he, hpk⟩
    · rw [h]
      exact (contains_keys_iff _ _).mpr ⟨(k', v), mem_dictSet_self m k' v, rfl⟩

theorem mem_dictSetdefault {β : Type} (m : List (String × β)) (k : String) (v : β)
    (p : String × β) (hp : p ∈ dictSetdefault m k v) :
    p ∈ m ∨ (p = (k, v) ∧ ¬ (dictKeys m).contains k = true) := by
  unfold dictSetdefault at hp
  by_cases hc : (dictKeys m).contains k = true
  · rw [if_pos hc] at hp
    exact Or.inl hp
  · rw [if_neg hc] at hp
    rcases List.mem_append.mp hp with h | h
    · exact Or.inl h
    · exact Or.inr ⟨List.mem_singleton.mp h, hc⟩

theorem mem_dictSetdefault_of_mem {β : Type} (m : List (String × β)) (k : String)
    (v : β) (p : String × β) (hp : p ∈ m) : p ∈ dictSetdefault m k v := by
  unfold dictSetdefault
  by_cases hc : (dictKeys m).contains k = true
  · rw [if_pos hc]
    exact hp
  · rw [if_neg hc]
    exact List.mem_append.mpr (Or.inl hp)

theorem contains_dictSetdefault {β : Type} (m : List (String × β)) (k' : String)
    (v : β) (k : String) (h : (dictKeys (dictSetdefault m k' v)).contains k = true) :
    (dictKeys m).contains k = true ∨ k = k' := by
  obtain ⟨p, hp, hpk⟩ := (contains_keys_iff _ _).mp h
  rcases mem_dictSetdefault m k' v p hp with h' | h'
  · exact Or.inl ((contains_keys_iff _ _).mpr ⟨p, h', hpk⟩)
  · rw [h'.1] at hpk
    exact Or.inr hpk.symm

theorem mem_insertAllById (items : List SearchResult) :
    ∀ (m : List (String × SearchResult)) (p : String × SearchResult),
      p ∈ insertAllById m items → p ∈ m ∨ (p.2 ∈ items ∧ p.1 = p.2.id) := by
  induction items with
  | nil => exact fun m p hp => Or.inl hp
  | cons x rest ih =>
    intro m p hp
    rcases ih (dictSet m x.id x) p hp with h | h
    · rcases mem_dictSet m x.id x p h with h' | h'
      · exact Or.inl h'
      · refine Or.inr ⟨?_, ?_⟩
        · rw [h']
          exact List.mem_cons_self _ _
        · rw [h']
    · exact Or.inr ⟨List.mem_cons_of_mem _ h.1, h.2⟩

theorem contains_insertAllById (items : List SearchResult) :
    ∀ (m : List (String × SearchResult)) (k : String),
      (dictKeys (insertAllById m items)).contains k = true ↔
        (dictKeys m).contains k = true ∨ k ∈ items.map (fun r => r.id) := by
  induction items with
  | nil => simp [insertAllById]
  | cons x rest ih =>
    intro m k
    show (dictKeys (insertAllById (dictSet m x.id x) rest)).contains k = true ↔ _
    rw [ih]
    rw [contains_dictSet_iff]
    simp only [List.map_cons, List.mem_cons]
    tauto

theorem insertAllById_preserve (items : List SearchResult) :
    ∀ (m : List (String × SearchResult)) (p : String × SearchResult),
      p ∈ m → p.1 ∉ items.map (fun r => r.id) → p ∈ insertAllById m items := by
  induction items with
  | nil => exact fun m p hp _ => hp
  | cons x rest ih =>
    intro m p hp hni
    simp only [List.map_cons, List.mem_cons] at hni
    push_neg at hni
    exact ih (dictSet m x.id x) p (mem_dictSet_of_ne m x.id x p hp hni.1) hni.2

theorem insertAllById_mem_self (items : List SearchResult) :
    ∀ (m : List (String × SearchResult)) (s : SearchResult),
      (items.map (fun r => r.id)).Nodup →
      s ∈ items → (s.id, s) ∈ insertAllById m items := by
  induction items with
  | nil => exact fun m s _ hs => absurd hs (List.not_mem_nil _)
  | cons x rest ih =>
    intro m s hn hs
    rw [List.map_cons] at hn
    obtain ⟨hx, hrest⟩ := List.nodup_cons.mp hn
    rcases List.mem_cons.mp hs with rfl | hs'
    · exact insertAllById_preserve rest (dictSet m s.id s) (s.id, s)
        (mem_dictSet_self m s.id s) hx
    · exact ih (dictSet m x.id x) s hrest hs'

theorem setdefaultAllById_preserve (items : List SearchResult) :
    ∀ (m : List (String × SearchResult)) (p : String × SearchResult),
      p ∈ m → p ∈ setdefaultAllById m items := by
  induction items with
  | nil => exact fun m p hp => hp
  | cons x rest ih =>
    intro m p hp
    exact ih (dictSetdefault m x.id x) p (mem_dictSetdefault_of_mem m x.id x p hp)

theorem mem_setdefaultAllById (items : List SearchResult) :
    ∀ (m : List (String × SearchResult)) (p : String × SearchResult),
      p ∈ setdefaultAllById m items →
      p ∈ m ∨ (p.2 ∈ items ∧ p.1 = p.2.id ∧ ¬ (dictKeys m).contains p.1 = true) := by
  induction items with
  | nil => exact fun m p hp => Or.inl hp
  | cons x rest ih =>
    intro m p hp
    rcases ih (dictSetdefault m x.id x) p hp with h | h
    · rcases mem_dictSetdefault m x.id x p h with h' | h'
      · exact Or.inl h'
      · refine Or.inr ⟨?_, ?_, ?_⟩
        · rw [h'.1]
          exact List.mem_cons_self _ _
        · rw [h'.1]
        · rw [h'.1]
          exact h'.2
    · obtain ⟨hmem, hid, hnc⟩ := h
      refine Or.inr ⟨List.mem_cons_of_mem _ hmem, hid, fun hc => hnc ?_⟩
      obtain ⟨p', hp', hpk⟩ := (contains_keys_iff _ _).mp hc
      exact (contains_keys_iff _ _).mpr
        ⟨p', mem_dictSetdefault_of_mem m x.id x p' hp', hpk⟩

theorem setdefaultAllById_mem_self (items : List SearchResult) :
    ∀ (m : List (String × SearchResult)) (s : SearchResult),
      (items.map (fun r => r.id)).Nodup →
      s ∈ items → ¬ (dictKeys m).contains s.id = true →
      (s.id, s) ∈ setdefaultAllById m items := by
  induction items with
  | nil => exact fun m s _ hs _ => absurd hs (List.not_mem_nil _)
  | cons x rest ih =>
    intro m s hn hs hnc
    rw [List.map_cons] at hn
    obtain ⟨hx, hrest⟩ := List.nodup_cons.mp hn
    rcases List.mem_cons.mp hs with rfl | hs'
    · have h1 : dictSetdefault m s.id s = m ++ [(s.id, s)] := by
        rw [dictSetdefault, if_neg hnc]
      refine setdefaultAllById_preserve rest (dictSetdefault m s.id s) (s.id, s) ?_
      rw [h1]
      exact List.mem_append.mpr (Or.inr (List.mem_singleton.mpr rfl))
    · refine ih (dictSetdefault m x.id x) s hrest hs' (fun hc => ?_)
      rcases contains_dictSetdefault m x.id x s.id hc with h' | h'
      · exact hnc h'
      · exact hx (h' ▸ (List.mem_map.mpr ⟨s, hs', rfl⟩))

/-- C6: hybrid search returns the id-union of the semantic and keyword
results — the semantic entry (with its similarity score) is the one kept
whenever an id appears in both, keyword entries enter only for ids absent
from the semantic results — sorted by similarity descending and truncated to
`max_results` (15); when the union fits within `max_results`, every semantic
result and every new-id keyword result is present. -/
theorem c6_hybrid_union (db : VectorDatabase) (emb embR : String → Option Vec)
    (query : String) (resp sem_res : SearchResponse)
    (hsem : semanticSearch defaultAgent db emb embR query = some sem_res)
    (hh : hybridSearch defaultAgent db emb embR query = some resp)
    (hnsem : (sem_res.results.map (fun r => r.id)).Nodup)
    (hnkw : ((keywordSearch defaultAgent db query).results.map (fun r => r.id)).Nodup) :
    resp.results.length ≤ defaultAgent.max_results
    ∧ resp.results.Pairwise (fun x y => y.similarity ≤ x.similarity)
    ∧ (∀ r ∈ resp.results,
        r ∈ sem_res.results ∨
        (r ∈ (keywordSearch defaultAgent db query).results
          ∧ r.id ∉ sem_res.results.map (fun r => r.id)))
    ∧ (resp.total_results ≤ defaultAgent.max_results →
        (∀ s ∈ sem_res.results, s ∈ resp.results)
        ∧ (∀ kr ∈ (keywordSearch defaultAgent db query).results,
            kr.id ∉ sem_res.results.map (fun r => r.id) → kr ∈ resp.results)) := by
  have hh2 : some (SearchResponse.mk query
      (hybridRanked sem_res.results (keywordSearch defaultAgent db query).results).length
      ((hybridRanked sem_res.results
        (keywordSearch defaultAgent db query).results).take defaultAgent.max_results))
      = some resp := by
    rw [← hh, hybridSearch, hsem]
  injection hh2 with hh3
  have hres : resp.results = (hybridRanked sem_res.results
      (keywordSearch defaultAgent db query).results).take defaultAgent.max_results := by
    rw [← hh3]
  have htot : resp.total_results = (hybridRanked sem_res.results
      (keywordSearch defaultAgent db query).results).length := by
    rw [← hh3]
  have hsorted := List.sorted_mergeSort simDesc_trans simDesc_total
    ((setdefaultAllById (insertAllById [] sem_res.results)
      (keywordSearch defaultAgent db query).results).map Prod.snd)
  refine ⟨?_, ?_, ?_, ?_⟩
  · rw [hres]
    exact List.length_take_le _ _
  · rw [hres]
    exact (List.Pairwise.sublist (List.take_sublist _ _) hsorted).imp
      (fun h => by simpa [simDesc, decide_eq_true_eq] using h)
  · intro r hr
    rw [hres] at hr
    have hr1 : r ∈ hybridRanked sem_res.results
        (keywordSearch defaultAgent db query).results :=
      List.Sublist.mem hr (List.take_sublist _ _)
    have hr2 : r ∈ (setdefaultAllById (insertAllById [] sem_res.results)
        (keywordSearch defaultAgent db query).results).map Prod.snd :=
      List.mem_mergeSort.mp hr1
    obtain ⟨p, hp, hpr⟩ := List.mem_map.mp hr2
    rcases mem_setdefaultAllById _ _ p hp with h | h
    · rcases mem_insertAllById sem_res.results [] p h with h' | h'
      · cases h'
      · exact Or.inl (hpr ▸ h'.1)
    · refine Or.inr ⟨hpr ▸ h.1, fun hmem => h.2.2 ?_⟩
      rw [contains_insertAllById]
      right
      rw [h.2.1, hpr]
      exact hmem
  · intro htle
    rw [htot] at htle
    rw [hres, List.take_of_length_le htle]
    constructor
    · intro s hs
      have h1 : (s.id, s) ∈ insertAllById [] sem_res.results :=
        insertAllById_mem_self sem_res.results [] s hnsem hs
      have h2 : (s.id, s) ∈ setdefaultAllById (insertAllById [] sem_res.results)
          (keywordSearch defaultAgent db query).results :=
        setdefaultAllById_preserve _ _ _ h1
      exact List.mem_mergeSort.mpr (List.mem_map.mpr ⟨(s.id, s), h2, rfl⟩)
    · intro kr hkr hnotin
      have hnc : ¬ (dictKeys (insertAllById [] sem_res.results)).contains kr.id
          = true := by
        rw [contains_insertAllById]
        rintro (hc | hc)
        · simp [dictKeys] at hc
        · exact hnotin hc
      have h2 := setdefaultAllById_mem_self
        (keywordSearch defaultAgent db query).results _ kr hnkw hkr hnc
      exact List.mem_mergeSort.mpr (List.mem_map.mpr ⟨(kr.id, kr), h2, rfl⟩)

/-- C6 witness: a one-vector index where the query matches both semantically
(cosine similarity 1) and by keyword. -/
theorem c6_witness :
    ∃ sem_res resp,
      semanticSearch defaultAgent
          ⟨1, [("a", [1])], [("a", [("content", "hello")])], true⟩
          (fun _ => some [1]) (fun _ => none) "hello" = some sem_res
      ∧ hybridSearch defaultAgent
          ⟨1, [("a", [1])], [("a", [("content", "hello")])], true⟩
          (fun _ => some [1]) (fun _ => none) "hello" = some resp
      ∧ resp.results.length ≤ defaultAgent.max_results
      ∧ resp.results.Pairwise (fun x y => y.similarity ≤ x.similarity) := by
  have hcos : cosineSimilarity [(1 : ℚ)] [(1 : ℚ)] = 1 := by
    have hv : vnorm [(1 : ℚ)] = 1 := by
      rw [vnorm]
      norm_num [sumSq, Real.sqrt_one]
    rw [cosineSimilarity, hv, if_neg (by norm_num)]
    norm_num [dot]
  have hsearch : searchSimilar ⟨1, [("a", [1])], [("a", [("content", "hello")])], true⟩
      [(1 : ℚ)] defaultAgent.max_results defaultAgent.min_similarity_threshold =
      .ok [⟨"a", 1, [("content", "hello")]⟩] := by
    have hstep : searchSimilar ⟨1, [("a", [1])], [("a", [("content", "hello")])], true⟩
        [(1 : ℚ)] defaultAgent.max_results defaultAgent.min_similarity_threshold =
        .ok (((List.filterMap (fun p : String × Vec =>
          if defaultAgent.min_similarity_threshold ≤ cosineSimilarity [(1 : ℚ)] p.2 then
            some (SearchResult.mk p.1 (cosineSimilarity [(1 : ℚ)] p.2)
              ((dictFind [("a", [("content", "hello")])] p.1).getD []))
          else none) [("a", [(1 : ℚ)])]).mergeSort simDesc).take defaultAgent.max_results) := by
      rw [searchSimilar, if_neg (by decide), if_neg (by decide)]
    have hc : defaultAgent.min_similarity_threshold ≤ cosineSimilarity [(1 : ℚ)] [(1 : ℚ)] := by
      rw [hcos]
      show (0.2 : ℝ) ≤ 1
      norm_num
    have hfaapp : (fun p : String × Vec =>
        if defaultAgent.min_similarity_threshold ≤ cosineSimilarity [(1 : ℚ)] p.2 then
          some (SearchResult.mk p.1 (cosineSimilarity [(1 : ℚ)] p.2)
            ((dictFind [("a", [("content", "hello")])] p.1).getD []))
        else none) ("a", [(1 : ℚ)]) = some (SearchResult.mk "a" 1 [("content", "hello")]) := by
      show (if defaultAgent.min_similarity_threshold ≤ cosineSimilarity [(1 : ℚ)] [(1 : ℚ)] then
          some (SearchResult.mk "a" (cosineSimilarity [(1 : ℚ)] [(1 : ℚ)])
            ((dictFind [("a", [("content", "hello")])] "a").getD []))
        else none) = some (SearchResult.mk "a" 1 [("content", "hello")])
      rw [if_pos hc, hcos]
      rfl
    have hfa : List.filterMap (fun p : String × Vec =>
        if defaultAgent.min_similarity_threshold ≤ cosineSimilarity [(1 : ℚ)] p.2 then
          some (SearchResult.mk p.1 (cosineSimilarity [(1 : ℚ)] p.2)
            ((dictFind [("a", [("content", "hello")])] p.1).getD []))
        else none) [("a", [(1 : ℚ)])] = [SearchResult.mk "a" 1 [("content", "hello")]] := by
      simp only [List.filterMap_cons, hfaapp, List.filterMap_nil]
    rw [hstep, hfa, List.mergeSort_singleton,
      List.take_of_length_le (by decide : ([(⟨"a", 1, [("content", "hello")]⟩ :
        SearchResult)]).length ≤ defaultAgent.max_results)]
  have hsem : semanticSearch defaultAgent
      ⟨1, [("a", [1])], [("a", [("content", "hello")])], true⟩
      (fun _ => some [1]) (fun _ => none) "hello" =
      some ⟨"hello", 1, [⟨"a", 1, [("content", "hello")]⟩]⟩ := by
    have h1 : semanticSearch defaultAgent
        ⟨1, [("a", [1])], [("a", [("content", "hello")])], true⟩
        (fun _ => some [1]) (fun _ => none) "hello" =
        match searchSimilar ⟨1, [("a", [1])], [("a", [("content", "hello")])], true⟩
            [(1 : ℚ)] defaultAgent.max_results defaultAgent.min_similarity_threshold with
        | .error _ => none
        | .ok ms =>
          some ⟨"hello",
            (if defaultAgent.rerank_model ≠ "" then
              (rerank (fun _ => none) "hello" ms).map (fun e => e.res) else ms).length,
            if defaultAgent.rerank_model ≠ "" then
              (rerank (fun _ => none) "hello" ms).map (fun e => e.res) else ms⟩ := rfl
    rw [h1, hsearch]
    rfl
  have hh : hybridSearch defaultAgent
      ⟨1, [("a", [1])], [("a", [("content", "hello")])], true⟩
      (fun _ => some [1]) (fun _ => none) "hello" =
      some ⟨"hello",
        (hybridRanked [⟨"a", 1, [("content", "hello")]⟩]
          (keywordSearch defaultAgent
            ⟨1, [("a", [1])], [("a", [("content", "hello")])], true⟩ "hello").results).length,
        (hybridRanked [⟨"a", 1, [("content", "hello")]⟩]
          (keywordSearch defaultAgent
            ⟨1, [("a", [1])], [("a", [("content", "hello")])], true⟩ "hello").results).take
          defaultAgent.max_results⟩ := by
    rw [hybridSearch, hsem]
  refine ⟨_, _, hsem, hh, ?_, ?_⟩
  · exact (c6_hybrid_union _ _ _ _ _ _ hsem hh (by decide) (by decide)).1
  · exact (c6_hybrid_union _ _ _ _ _ _ hsem hh (by decide) (by decide)).2.1

end TubeSage
